import Mathlib

/-!
Verification of the NTHU-Scheduler-Plugin custom scheduler
(`pkg/plugins/scheduler.go`), a Kubernetes scheduler plugin with three
decision functions:

* `PreFilter` — gang admission gate: the pod's group must have at least
  `minAvailable` visible members;
* `Score` — per-node raw score from the node's allocatable memory,
  negated in `Least` mode;
* `NormalizeScore` — rescales the raw per-node scores into the
  framework's bounded range `[MinNodeScore, MaxNodeScore]`.

All Go arithmetic is on `int64`; the embedding models every `int64`
operation with explicit two's-complement wrap-around (`wrap64`), and the
Go truncating division with `Int.tdiv`.
-/

namespace Plugins

/-- Outcome codes of the scheduler framework statuses used by the plugin. -/
inductive Code where
  | Success
  | Error
  | Unschedulable
deriving DecidableEq, Repr

/-- A framework status: an outcome code together with a reason message. -/
structure Status where
  code : Code
  reason : String
deriving DecidableEq, Repr

/-- Constructor `framework.NewStatus(code, msg)`. -/
def NewStatus (c : Code) (msg : String) : Status := ⟨c, msg⟩

/-- A workload unit (pod): a name and its label map, modelled as an
association list (Go map keys are unique; lookup takes the first match). -/
structure Pod where
  name : String
  labels : List (String × String)
deriving DecidableEq, Repr

/-- Go map lookup `pod.Labels[key]`: `some v` when present (`ok = true`),
`none` when absent. -/
def lookupLabel (labels : List (String × String)) (key : String) : Option String :=
  (labels.find? (fun kv => kv.1 = key)).map (fun kv => kv.2)

/-- One entry of `framework.NodeScoreList`: node name and its score. -/
structure NodeScore where
  name : String
  score : Int
deriving DecidableEq, Repr

-- Constants of the plugin (scheduler.go `const` block).
def groupNameLabel : String := "podGroup"
def minAvailableLabel : String := "minAvailable"
def leastMode : String := "Least"
def mostMode : String := "Most"

/-- Modelled from the spec: the orchestrator's fixed score bounds.
`framework.MinNodeScore`/`framework.MaxNodeScore` belong to the host
scheduling framework, not to this repository's source; the spec fixes the
bounded range to `[0, 100]` ("after normalization with bounds [0,100]"),
matching the Kubernetes framework constants. -/
def MinNodeScore : Int := 0

/-- Modelled from the spec: upper bound of the framework score range.
See `MinNodeScore`. -/
def MaxNodeScore : Int := 100

/-- Two's-complement wrap-around into the signed 64-bit range
`[-2^63, 2^63)`: the semantics of every Go `int64` arithmetic result. -/
def wrap64 (x : Int) : Int :=
  (x + 9223372036854775808) % 18446744073709551616 - 9223372036854775808

/-- Go `int64` subtraction. -/
def sub64 (a b : Int) : Int := wrap64 (a - b)

/-- Go `int64` multiplication. -/
def mul64 (a b : Int) : Int := wrap64 (a * b)

/-- Go `int64` addition. -/
def add64 (a b : Int) : Int := wrap64 (a + b)

/-- Go `int64` negation (`-x` wraps at `math.MinInt64`). -/
def neg64 (a : Int) : Int := wrap64 (-a)

/-- Go `int64` quotient: truncation toward zero, and
`math.MinInt64 / -1` wraps back to `math.MinInt64` per the Go spec. -/
def quot64 (a b : Int) : Int := wrap64 (a.tdiv b)

/-- Go `strconv.Atoi`: optional single leading `+`/`-` sign followed by at
least one decimal digit, nothing else; the value must fit in a 64-bit
`int`, otherwise an error (`none`) is returned. -/
def atoi (s : String) : Option Int :=
  match s.toList with
  | [] => none
  | c :: rest =>
    let signDigits : Int × List Char :=
      if c = '-' then (-1, rest) else if c = '+' then (1, rest) else (1, c :: rest)
    if signDigits.2 = [] then none
    else if signDigits.2.all Char.isDigit then
      let v : Int := signDigits.1 *
        (signDigits.2.foldl (fun a d => 10 * a + (d.toNat - '0'.toNat)) 0 : Nat)
      if -9223372036854775808 ≤ v ∧ v < 9223372036854775808 then some v else none
    else none

/-- The method `CustomScheduler.PreFilter` (scheduler.go).  The external
group-membership collaborator (`SharedInformerFactory ... Lister().List`
over the selector `{podGroup: group}`) is a parameter `listGroupPods`
from the group label value to the listed pods or a listing error.  The Go
function also returns a `*PreFilterResult` that is `nil` on every path,
so only the `*framework.Status` is modelled. -/
def PreFilter (listGroupPods : String → Except String (List Pod)) (pod : Pod) :
    Status :=
  match lookupLabel pod.labels groupNameLabel,
        lookupLabel pod.labels minAvailableLabel with
  | some group, some minAvailableStr =>
    match atoi minAvailableStr with
    | none => NewStatus .Error "Invalid minAvailable value."
    | some minAvailable =>
      match listGroupPods group with
      | .error e => NewStatus .Error ("Error listing pods.: " ++ e ++ ".")
      | .ok pods =>
        if (pods.length : Int) < minAvailable then
          NewStatus .Unschedulable "Not enough pods in the group."
        else
          NewStatus .Success ""
  | _, _ => NewStatus .Error "Invalid label."

/-- The method `CustomScheduler.Score` (scheduler.go).  The external node snapshot
(`SnapshotSharedLister().NodeInfos().Get`) is a parameter `getNodeMemory`
from the node name to its allocatable memory (`int64`) or a lookup error.
In `Least` mode the Go code computes `score = -memory` in `int64`. -/
def Score (scoreMode : String) (getNodeMemory : String → Except String Int)
    (nodeName : String) : Int × Status :=
  match getNodeMemory nodeName with
  | .error e => (0, NewStatus .Error ("Error getting node info: " ++ e))
  | .ok memory =>
    let score : Int :=
      if scoreMode = leastMode then neg64 memory
      else if scoreMode = mostMode then memory
      else 0
    (score, NewStatus .Success "")

/-- One iteration of the min/max loop of `NormalizeScore`: the running
pair is `(minScore, maxScore)`. -/
def minMaxStep (acc : Int × Int) (ns : NodeScore) : Int × Int :=
  let acc1 := if ns.score < acc.1 then (ns.score, acc.2) else acc
  if ns.score > acc1.2 then (acc1.1, ns.score) else acc1

/-- The method `CustomScheduler.NormalizeScore` (scheduler.go).  `minScore` starts at
`math.MaxInt64` and `maxScore` at `math.MinInt64`; `rangeScore`, the
scaling product and the division are `int64` operations.  The Go code
mutates the `NodeScoreList` in place; the model returns the updated list
together with the returned status. -/
def NormalizeScore (scores : List NodeScore) : List NodeScore × Status :=
  let mm := scores.foldl minMaxStep (9223372036854775807, -9223372036854775808)
  let minScore := mm.1
  let maxScore := mm.2
  let rangeScore := sub64 maxScore minScore
  if rangeScore = 0 then
    (scores.map (fun ns =>
        { ns with score := add64 MinNodeScore (quot64 (sub64 MaxNodeScore MinNodeScore) 2) }),
     NewStatus .Success "")
  else
    (scores.map (fun ns =>
        let s := add64 MinNodeScore
          (quot64 (mul64 (sub64 ns.score minScore) (sub64 MaxNodeScore MinNodeScore))
            rangeScore)
        { ns with score := s }),
     NewStatus .Success "")

/-! ### Helper lemmas -/

/-- Wrapping is the identity on values already in the `int64` range. -/
theorem wrap64_eq_self {x : Int} (h1 : -9223372036854775808 ≤ x)
    (h2 : x < 9223372036854775808) : wrap64 x = x := by
  unfold wrap64
  omega

/-- The min/max loop step computes the componentwise min and max. -/
theorem minMaxStep_eq (acc : Int × Int) (ns : NodeScore) :
    minMaxStep acc ns = (min acc.1 ns.score, max acc.2 ns.score) := by
  rcases acc with ⟨a, b⟩
  unfold minMaxStep
  by_cases h1 : ns.score < a <;> by_cases h2 : ns.score > b <;>
    simp [h1, h2, min_def, max_def] <;> omega

/-- The min/max fold never moves min up nor max down. -/
theorem foldl_minMax_le_init (l : List NodeScore) (init : Int × Int) :
    (l.foldl minMaxStep init).1 ≤ init.1 ∧ init.2 ≤ (l.foldl minMaxStep init).2 := by
  induction l generalizing init with
  | nil => exact ⟨le_refl _, le_refl _⟩
  | cons x xs ih =>
    rw [List.foldl_cons, minMaxStep_eq]
    have h := ih (min init.1 x.score, max init.2 x.score)
    constructor
    · exact le_trans h.1 (min_le_left _ _)
    · exact le_trans (le_max_left _ _) h.2

/-- Every listed score lies between the folded min and the folded max. -/
theorem foldl_minMax_bounds_of_mem (l : List NodeScore) (init : Int × Int)
    (ns : NodeScore) (h : ns ∈ l) :
    (l.foldl minMaxStep init).1 ≤ ns.score ∧
    ns.score ≤ (l.foldl minMaxStep init).2 := by
  induction l generalizing init with
  | nil => cases h
  | cons x xs ih =>
    rw [List.foldl_cons]
    rcases List.mem_cons.mp h with rfl | hmem
    · rw [minMaxStep_eq]
      have hle := foldl_minMax_le_init xs (min init.1 ns.score, max init.2 ns.score)
      exact ⟨le_trans hle.1 (min_le_right _ _), le_trans (le_max_right _ _) hle.2⟩
    · exact ih (minMaxStep init x) hmem

/-- A lower bound on the initial min and on all scores is a lower bound on
the folded min; dually for the max. -/
theorem foldl_minMax_of_bounds (l : List NodeScore) (init : Int × Int)
    (b c : Int) (hb : b ≤ init.1) (hc : init.2 ≤ c)
    (h : ∀ ns ∈ l, b ≤ ns.score ∧ ns.score ≤ c) :
    b ≤ (l.foldl minMaxStep init).1 ∧ (l.foldl minMaxStep init).2 ≤ c := by
  induction l generalizing init with
  | nil => exact ⟨hb, hc⟩
  | cons x xs ih =>
    rw [List.foldl_cons]
    have hx := h x (List.mem_cons_self x xs)
    refine ih (minMaxStep init x) ?_ ?_ (fun ns hns => h ns (List.mem_cons_of_mem x hns))
    · rw [minMaxStep_eq]; exact le_min hb hx.1
    · rw [minMaxStep_eq]; exact max_le hc hx.2

/-- Folding the min/max step over an all-`v` list from `(v, v)` stays at
`(v, v)`. -/
theorem foldl_minMax_const (l : List NodeScore) (v : Int)
    (h : ∀ ns ∈ l, ns.score = v) :
    l.foldl minMaxStep (v, v) = (v, v) := by
  induction l with
  | nil => rfl
  | cons x xs ih =>
    rw [List.foldl_cons, minMaxStep_eq]
    have hx := h x (List.mem_cons_self x xs)
    simp only [hx, min_self, max_self]
    exact ih (fun ns hns => h ns (List.mem_cons_of_mem x hns))

/-- The min/max fold over a non-empty all-`v` list (with `v` in the
`int64` range) returns `(v, v)`. -/
theorem foldl_minMax_all_eq (l : List NodeScore) (v : Int) (hne : l ≠ [])
    (h : ∀ ns ∈ l, ns.score = v)
    (hlo : -9223372036854775808 ≤ v) (hhi : v ≤ 9223372036854775807) :
    l.foldl minMaxStep (9223372036854775807, -9223372036854775808) = (v, v) := by
  cases l with
  | nil => exact absurd rfl hne
  | cons x xs =>
    rw [List.foldl_cons, minMaxStep_eq]
    have hx := h x (List.mem_cons_self x xs)
    have h1 : min (9223372036854775807 : Int) x.score = v := by
      rw [hx]; exact min_eq_right hhi
    have h2 : max (-9223372036854775808 : Int) x.score = v := by
      rw [hx]; exact max_eq_right hlo
    rw [h1, h2]
    exact foldl_minMax_const xs v (fun ns hns => h ns (List.mem_cons_of_mem x hns))

/-- Signed 64-bit negation is exact above `math.MinInt64`. -/
theorem neg64_eq_self {m : Int} (hlo : -9223372036854775808 < m)
    (hhi : m ≤ 9223372036854775808) : neg64 m = -m := by
  unfold neg64
  exact wrap64_eq_self (by omega) (by omega)

/-- The scaled value of the general normalization branch, written with the
wrapping `int64` operations exactly as in the code. -/
def scaledScore (mn rangeScore s : Int) : Int :=
  add64 MinNodeScore
    (quot64 (mul64 (sub64 s mn) (sub64 MaxNodeScore MinNodeScore)) rangeScore)

/-- With the score spread small enough that no `int64` operation
overflows, the scaled value equals the exact integer expression
`(s - mn) * 100 / (mx - mn)` (Euclidean = truncating here, everything
nonnegative). -/
theorem scaledScore_eq_exact (mn mx s : Int)
    (hmn : -36028797018963968 ≤ mn) (hmx : mx ≤ 36028797018963968)
    (h1 : mn ≤ s) (h2 : s ≤ mx) (hlt : mn < mx) :
    scaledScore mn (sub64 mx mn) s = (s - mn) * 100 / (mx - mn) := by
  have hrange : sub64 mx mn = mx - mn := wrap64_eq_self (by omega) (by omega)
  have hsub : sub64 s mn = s - mn := wrap64_eq_self (by omega) (by omega)
  have hconst : sub64 MaxNodeScore MinNodeScore = 100 := by decide
  have hmul : mul64 (s - mn) 100 = (s - mn) * 100 :=
    wrap64_eq_self (by omega) (by omega)
  have htd : ((s - mn) * 100).tdiv (mx - mn) = (s - mn) * 100 / (mx - mn) :=
    Int.tdiv_eq_ediv (by omega) (by omega)
  have hq0 : 0 ≤ (s - mn) * 100 / (mx - mn) :=
    Int.ediv_nonneg (by omega) (by omega)
  have hq100 : (s - mn) * 100 / (mx - mn) ≤ 100 := by
    have hle : (s - mn) * 100 ≤ (mx - mn) * 100 := by nlinarith
    have hmono : (s - mn) * 100 / (mx - mn) ≤ (mx - mn) * 100 / (mx - mn) :=
      Int.ediv_le_ediv (by omega) hle
    have hcancel : (mx - mn) * 100 / (mx - mn) = 100 :=
      Int.mul_ediv_cancel_left _ (by omega)
    omega
  unfold scaledScore
  rw [hrange, hsub, hconst, hmul]
  unfold quot64
  rw [htd, wrap64_eq_self (by omega) (by omega)]
  unfold add64 MinNodeScore
  rw [zero_add, wrap64_eq_self (by omega) (by omega)]

/-! ### Claim theorems -/

/-- C1: for every pod whose group-name and minimum-available labels are
present and whose minimum-available value parses as an integer `m`, when
the group-membership listing for that group label succeeds with `ps`,
`PreFilter` returns Success iff `ps.length ≥ m`, returns Unschedulable
when `ps.length < m`, and in particular always admits for `m = 0`. -/
theorem prefilter_admission_iff_count
    (lp : String → Except String (List Pod)) (pod : Pod)
    (group s : String) (m : Int) (ps : List Pod)
    (hg : lookupLabel pod.labels groupNameLabel = some group)
    (hs : lookupLabel pod.labels minAvailableLabel = some s)
    (hm : atoi s = some m)
    (hl : lp group = Except.ok ps) :
    ((PreFilter lp pod).code = Code.Success ↔ m ≤ (ps.length : Int)) ∧
    ((ps.length : Int) < m → (PreFilter lp pod).code = Code.Unschedulable) ∧
    (m = 0 → (PreFilter lp pod).code = Code.Success) := by
  by_cases h : (ps.length : Int) < m
  · have he : PreFilter lp pod =
        NewStatus Code.Unschedulable "Not enough pods in the group." := by
      simp only [PreFilter, hg, hs, hm, hl, if_pos h]
    rw [he]
    exact ⟨⟨fun hc => absurd hc (by decide), fun hle => absurd h (by omega)⟩,
      fun _ => rfl, fun h0 => absurd h (by omega)⟩
  · have he : PreFilter lp pod = NewStatus Code.Success "" := by
      simp only [PreFilter, hg, hs, hm, hl, if_neg h]
    rw [he]
    exact ⟨⟨fun _ => by omega, fun _ => rfl⟩, fun hlt => absurd hlt h,
      fun _ => rfl⟩

/-- Witness for C1 at a concrete input: minAvailable "2", two pods listed. -/
theorem prefilter_admission_iff_count_witness :
    ((PreFilter (fun _ => Except.ok [⟨"a", []⟩, ⟨"b", []⟩])
        ⟨"p", [("podGroup", "g"), ("minAvailable", "2")]⟩).code = Code.Success ↔
      (2 : Int) ≤ (([⟨"a", []⟩, ⟨"b", []⟩] : List Pod).length : Int)) ∧
    ((([⟨"a", []⟩, ⟨"b", []⟩] : List Pod).length : Int) < 2 →
      (PreFilter (fun _ => Except.ok [⟨"a", []⟩, ⟨"b", []⟩])
        ⟨"p", [("podGroup", "g"), ("minAvailable", "2")]⟩).code = Code.Unschedulable) ∧
    ((2 : Int) = 0 →
      (PreFilter (fun _ => Except.ok [⟨"a", []⟩, ⟨"b", []⟩])
        ⟨"p", [("podGroup", "g"), ("minAvailable", "2")]⟩).code = Code.Success) :=
  prefilter_admission_iff_count (fun _ => Except.ok [⟨"a", []⟩, ⟨"b", []⟩])
    ⟨"p", [("podGroup", "g"), ("minAvailable", "2")]⟩ "g" "2" 2 [⟨"a", []⟩, ⟨"b", []⟩]
    (by decide) (by decide) (by decide) rfl

/-- C7: when the group-name label or the minimum-available label is
missing, or the minimum-available value does not parse, `PreFilter`
returns the Error code (a configuration error, never Unschedulable), and
its result does not depend on the group-membership listing at all. -/
theorem prefilter_config_error
    (lp lp' : String → Except String (List Pod)) (pod : Pod)
    (h : lookupLabel pod.labels groupNameLabel = none ∨
         lookupLabel pod.labels minAvailableLabel = none ∨
         ∃ s, lookupLabel pod.labels minAvailableLabel = some s ∧ atoi s = none) :
    (PreFilter lp pod).code = Code.Error ∧
    (PreFilter lp pod).code ≠ Code.Unschedulable ∧
    PreFilter lp pod = PreFilter lp' pod := by
  rcases h with h | h | ⟨s, hs, hp⟩
  · cases h2 : lookupLabel pod.labels minAvailableLabel <;>
      refine ⟨?_, ?_, ?_⟩ <;> simp [PreFilter, NewStatus, h, h2]
  · cases h1 : lookupLabel pod.labels groupNameLabel <;>
      refine ⟨?_, ?_, ?_⟩ <;> simp [PreFilter, NewStatus, h, h1]
  · cases h1 : lookupLabel pod.labels groupNameLabel <;>
      refine ⟨?_, ?_, ?_⟩ <;> simp [PreFilter, NewStatus, hs, hp, h1]

/-- Witness for C7 at a concrete input: pod with no labels at all. -/
theorem prefilter_config_error_witness :
    (PreFilter (fun _ => Except.ok []) ⟨"p", []⟩).code = Code.Error ∧
    (PreFilter (fun _ => Except.ok []) ⟨"p", []⟩).code ≠ Code.Unschedulable ∧
    PreFilter (fun _ => Except.ok []) ⟨"p", []⟩ =
      PreFilter (fun _ => Except.error "down") ⟨"p", []⟩ :=
  prefilter_config_error (fun _ => Except.ok []) (fun _ => Except.error "down")
    ⟨"p", []⟩ (Or.inl (by decide))

/-- C8 counterexample: with minAvailable "-1" (which `strconv.Atoi`
parses successfully as -1) and a successful empty listing, `PreFilter`
returns Success — it admits the pod instead of returning the
configuration-error outcome the claim requires. -/
theorem prefilter_negative_min_cex :
    (PreFilter (fun _ => Except.ok [])
        ⟨"p", [("podGroup", "g"), ("minAvailable", "-1")]⟩).code = Code.Success ∧
    (PreFilter (fun _ => Except.ok [])
        ⟨"p", [("podGroup", "g"), ("minAvailable", "-1")]⟩).code ≠ Code.Error := by
  constructor <;> decide

/-- C8 amended: a minimum-available label that parses as a negative
integer is not rejected as a configuration error; since a listing's
length is never below zero, the pod is always admitted (Success)
whenever the listing succeeds. -/
theorem prefilter_negative_min_admits
    (lp : String → Except String (List Pod)) (pod : Pod)
    (group s : String) (m : Int) (ps : List Pod)
    (hg : lookupLabel pod.labels groupNameLabel = some group)
    (hs : lookupLabel pod.labels minAvailableLabel = some s)
    (hm : atoi s = some m) (hneg : m < 0)
    (hl : lp group = Except.ok ps) :
    PreFilter lp pod = NewStatus Code.Success "" := by
  simp only [PreFilter, hg, hs, hm, hl]
  rw [if_neg (by omega : ¬((ps.length : Int) < m))]

/-- Witness for C8's amended theorem at minAvailable "-1". -/
theorem prefilter_negative_min_admits_witness :
    PreFilter (fun _ => Except.ok [])
        ⟨"p", [("podGroup", "g"), ("minAvailable", "-1")]⟩ =
      NewStatus Code.Success "" :=
  prefilter_negative_min_admits (fun _ => Except.ok [])
    ⟨"p", [("podGroup", "g"), ("minAvailable", "-1")]⟩ "g" "-1" (-1) []
    (by decide) (by decide) (by decide) (by decide) rfl

/-- C5 counterexample: at `m = math.MinInt64` the Go negation
`score = -memory` wraps: the Least-mode score is `math.MinInt64` itself,
not the exact mathematical `-m = 2^63`. -/
theorem score_least_minint_cex :
    (Score leastMode (fun _ => Except.ok (-9223372036854775808)) "n").1 =
      -9223372036854775808 ∧
    (Score leastMode (fun _ => Except.ok (-9223372036854775808)) "n").1 ≠
      -(-9223372036854775808 : Int) := by
  constructor <;> decide

/-- C5 amended: when the allocatable-memory lookup succeeds with value
`m`, `Score` returns `(m, Success)` in Most mode for every `m`
(unconditionally: the code copies the memory value with no arithmetic),
and returns `(-m, Success)` in Least mode for every `int64` value `m`
except `m = math.MinInt64`, at which the `int64` negation wraps to
itself. -/
theorem score_mode_values
    (gm : String → Except String Int) (n : String) (m : Int)
    (h : gm n = Except.ok m) :
    Score mostMode gm n = (m, NewStatus Code.Success "") ∧
    (-9223372036854775808 < m → m < 9223372036854775808 →
      Score leastMode gm n = (-m, NewStatus Code.Success "")) := by
  constructor
  · unfold Score
    rw [h]
    dsimp only
    rw [if_neg (by decide : ¬(mostMode = leastMode)), if_pos rfl]
  · intro hlo hhi
    unfold Score
    rw [h]
    dsimp only
    rw [if_pos rfl, neg64_eq_self hlo (by omega)]

/-- Witness for C5's amended theorem at `m = 1000`, with the Least-mode
range hypotheses discharged. -/
theorem score_mode_values_witness :
    Score mostMode (fun _ => Except.ok 1000) "n" =
      (1000, NewStatus Code.Success "") ∧
    Score leastMode (fun _ => Except.ok 1000) "n" =
      (-1000, NewStatus Code.Success "") :=
  ⟨(score_mode_values (fun _ => Except.ok 1000) "n" 1000 rfl).1,
   (score_mode_values (fun _ => Except.ok 1000) "n" 1000 rfl).2
     (by decide) (by decide)⟩

/-- C6 counterexample: with memory `m1 = math.MinInt64 < m2 = 0`, the
Least-mode raw score of `m1` wraps to `math.MinInt64`, which is **less**
than the score 0 of `m2`, so the Least-mode raw score is not strictly
decreasing over the full signed 64-bit range. -/
theorem score_least_mono_cex :
    (Score leastMode
        (fun _ => (Except.ok (-9223372036854775808) : Except String Int)) "a").1 =
      -9223372036854775808 ∧
    (Score leastMode (fun _ => (Except.ok 0 : Except String Int)) "b").1 = 0 ∧
    ¬((Score leastMode
        (fun _ => (Except.ok (-9223372036854775808) : Except String Int)) "a").1 >
      (Score leastMode (fun _ => (Except.ok 0 : Except String Int)) "b").1) := by
  refine ⟨?_, ?_, ?_⟩ <;> decide

/-- C6 amended: for memory values `m1 < m2` the Most-mode raw score of
`m1` is strictly smaller than that of `m2` for **all** such values
(unconditionally: Most mode copies the memory value), while the
Least-mode raw score of `m1` is strictly greater than that of `m2` for
`int64` values with `m1 ≠ math.MinInt64`; the exclusion of
`math.MinInt64` in Least mode is forced by the wrapping of the `int64`
negation. -/
theorem score_mode_mono
    (gm : String → Except String Int) (n1 n2 : String) (m1 m2 : Int)
    (h1 : gm n1 = Except.ok m1) (h2 : gm n2 = Except.ok m2)
    (hlt : m1 < m2) :
    (Score mostMode gm n1).1 < (Score mostMode gm n2).1 ∧
    (-9223372036854775808 < m1 → m2 < 9223372036854775808 →
      (Score leastMode gm n1).1 > (Score leastMode gm n2).1) := by
  constructor
  · unfold Score
    rw [h1, h2]
    dsimp only
    have hne : ¬(mostMode = leastMode) := by decide
    rw [if_neg hne, if_neg hne, if_pos rfl, if_pos rfl]
    exact hlt
  · intro hlo hhi
    unfold Score
    rw [h1, h2]
    dsimp only
    rw [if_pos rfl, if_pos rfl, neg64_eq_self hlo (by omega),
      neg64_eq_self (by omega) (by omega)]
    omega

/-- Witness for C6's amended theorem at `m1 = 1000 < m2 = 2000`, with the
Least-mode range hypotheses discharged. -/
theorem score_mode_mono_witness :
    (Score mostMode
        (fun n => if n = "a" then (Except.ok 1000 : Except String Int)
                  else Except.ok 2000) "a").1 <
      (Score mostMode
        (fun n => if n = "a" then (Except.ok 1000 : Except String Int)
                  else Except.ok 2000) "b").1 ∧
    (Score leastMode
        (fun n => if n = "a" then (Except.ok 1000 : Except String Int)
                  else Except.ok 2000) "a").1 >
      (Score leastMode
        (fun n => if n = "a" then (Except.ok 1000 : Except String Int)
                  else Except.ok 2000) "b").1 :=
  ⟨(score_mode_mono
      (fun n => if n = "a" then (Except.ok 1000 : Except String Int) else Except.ok 2000)
      "a" "b" 1000 2000 rfl rfl (by decide)).1,
   (score_mode_mono
      (fun n => if n = "a" then (Except.ok 1000 : Except String Int) else Except.ok 2000)
      "a" "b" 1000 2000 rfl rfl (by decide)).2 (by decide) (by decide)⟩

/-- C3: a non-empty all-equal raw-score vector (range 0) normalizes every
entry to exactly the midpoint `MinNodeScore + (MaxNodeScore -
MinNodeScore) / 2` (truncating division), with a Success status. -/
theorem normalize_degenerate_midpoint (scores : List NodeScore) (v : Int)
    (hne : scores ≠ [])
    (hv : ∀ ns ∈ scores, ns.score = v)
    (hlo : -9223372036854775808 ≤ v) (hhi : v < 9223372036854775808) :
    (NormalizeScore scores).2 = NewStatus Code.Success "" ∧
    ∀ ns ∈ (NormalizeScore scores).1,
      ns.score = MinNodeScore + (MaxNodeScore - MinNodeScore).tdiv 2 := by
  have hfold := foldl_minMax_all_eq scores v hne hv hlo (by omega)
  have hrange : sub64 v v = 0 := by
    unfold sub64
    rw [sub_self]
    decide
  unfold NormalizeScore
  rw [hfold]
  dsimp only
  rw [if_pos hrange]
  refine ⟨rfl, fun ns hns => ?_⟩
  rw [List.mem_map] at hns
  obtain ⟨x, hx, rfl⟩ := hns
  show add64 MinNodeScore (quot64 (sub64 MaxNodeScore MinNodeScore) 2) =
    MinNodeScore + (MaxNodeScore - MinNodeScore).tdiv 2
  decide

/-- Witness for C3 on the concrete all-equal vector `[7, 7]`. -/
theorem normalize_degenerate_midpoint_witness :
    (NormalizeScore [⟨"a", 7⟩, ⟨"b", 7⟩]).2 = NewStatus Code.Success "" ∧
    ∀ ns ∈ (NormalizeScore [⟨"a", 7⟩, ⟨"b", 7⟩]).1,
      ns.score = MinNodeScore + (MaxNodeScore - MinNodeScore).tdiv 2 :=
  normalize_degenerate_midpoint [⟨"a", 7⟩, ⟨"b", 7⟩] 7 (by decide) (by decide)
    (by decide) (by decide)

/-- Shared bound on the exact (non-wrapping) scaling quotient. -/
theorem scale_quotient_bounds (mn mx s : Int) (h1 : mn ≤ s) (h2 : s ≤ mx)
    (hlt : mn < mx) :
    0 ≤ (s - mn) * 100 / (mx - mn) ∧ (s - mn) * 100 / (mx - mn) ≤ 100 := by
  constructor
  · exact Int.ediv_nonneg (by nlinarith) (by omega)
  · have hle : (s - mn) * 100 ≤ (mx - mn) * 100 := by nlinarith
    have hmono := Int.ediv_le_ediv (by omega : (0 : Int) < mx - mn) hle
    have hcancel : (mx - mn) * 100 / (mx - mn) = 100 :=
      Int.mul_ediv_cancel_left _ (by omega)
    omega

/-- The exact scaling quotient is monotone in the raw score. -/
theorem scale_quotient_mono (mn mx s t : Int) (hst : s ≤ t) (hlt : mn < mx) :
    (s - mn) * 100 / (mx - mn) ≤ (t - mn) * 100 / (mx - mn) :=
  Int.ediv_le_ediv (by omega) (by nlinarith)

/-- C2 counterexample: on the raw vector `[0, 2^61]` the `int64` product
`(2^61 - 0) * 100` overflows (wraps to `-2^63`), and the normalized score
of the second entry is `-4`, outside `[MinNodeScore, MaxNodeScore] =
[0, 100]`.  So the bounds property fails for some inputs when all
arithmetic is performed in signed 64-bit integers. -/
theorem normalize_bounds_cex :
    (NormalizeScore [⟨"a", 0⟩, ⟨"b", 2305843009213693952⟩]).1 =
      [⟨"a", 0⟩, ⟨"b", -4⟩] ∧
    ¬(∀ ns ∈ (NormalizeScore [⟨"a", 0⟩, ⟨"b", 2305843009213693952⟩]).1,
        MinNodeScore ≤ ns.score ∧ ns.score ≤ MaxNodeScore) := by
  constructor <;> decide

/-- C2 amended: every normalized score lies within `[MinNodeScore,
MaxNodeScore]` provided the raw scores are bounded by `2^55` in absolute
value, which keeps every intermediate `int64` quantity (range, offset,
product `range * 100`) inside the signed 64-bit range; the unrestricted
claim fails by `int64` overflow (see the counterexample). -/
theorem normalize_bounds_no_overflow (scores : List NodeScore)
    (hb : ∀ ns ∈ scores,
      -36028797018963968 ≤ ns.score ∧ ns.score ≤ 36028797018963968) :
    ∀ ns ∈ (NormalizeScore scores).1,
      MinNodeScore ≤ ns.score ∧ ns.score ≤ MaxNodeScore := by
  obtain ⟨mn, mx, hmm⟩ : ∃ mn mx,
      scores.foldl minMaxStep (9223372036854775807, -9223372036854775808) =
        (mn, mx) := ⟨_, _, rfl⟩
  unfold NormalizeScore
  rw [hmm]
  dsimp only
  by_cases hc : sub64 mx mn = 0
  · rw [if_pos hc]
    intro ns hns
    rw [List.mem_map] at hns
    obtain ⟨x, hx, rfl⟩ := hns
    show MinNodeScore ≤ add64 MinNodeScore (quot64 (sub64 MaxNodeScore MinNodeScore) 2) ∧
      add64 MinNodeScore (quot64 (sub64 MaxNodeScore MinNodeScore) 2) ≤ MaxNodeScore
    decide
  · rw [if_neg hc]
    intro ns hns
    rw [List.mem_map] at hns
    obtain ⟨x, hx, rfl⟩ := hns
    have hxb := hb x hx
    have hmem := foldl_minMax_bounds_of_mem scores
      (9223372036854775807, -9223372036854775808) x hx
    rw [hmm] at hmem
    have hbnd := foldl_minMax_of_bounds scores
      (9223372036854775807, -9223372036854775808)
      (-36028797018963968) 36028797018963968 (by norm_num) (by norm_num) hb
    rw [hmm] at hbnd
    have hmnmx : mn ≤ mx := le_trans hmem.1 hmem.2
    have hrange : sub64 mx mn = mx - mn := wrap64_eq_self (by omega) (by omega)
    have hpos : mn < mx := by
      rw [hrange] at hc
      omega
    have heq := scaledScore_eq_exact mn mx x.score hbnd.1 hbnd.2 hmem.1 hmem.2 hpos
    have hq := scale_quotient_bounds mn mx x.score hmem.1 hmem.2 hpos
    show MinNodeScore ≤ scaledScore mn (sub64 mx mn) x.score ∧
      scaledScore mn (sub64 mx mn) x.score ≤ MaxNodeScore
    rw [heq]
    unfold MinNodeScore MaxNodeScore
    exact hq

/-- Witness for C2's amended theorem on the vector `[1000, 2000]`, whose
normalized form is `[0, 100]`: the bound instantiated at the first
normalized entry. -/
theorem normalize_bounds_no_overflow_witness :
    MinNodeScore ≤ (⟨"a", (0 : Int)⟩ : NodeScore).score ∧
      (⟨"a", (0 : Int)⟩ : NodeScore).score ≤ MaxNodeScore :=
  normalize_bounds_no_overflow [⟨"a", 1000⟩, ⟨"b", 2000⟩] (by decide)
    ⟨"a", (0 : Int)⟩ (by decide)

/-- C4 counterexample: on the raw vector `[0, 1, 2^61]` the entries at
indices 1 and 2 satisfy `raw[1] = 1 < raw[2] = 2^61`, but the `int64`
product overflow sends the normalized entry 2 to `-4 < 0 =
normalized[1]`: order is not preserved for every non-degenerate
vector. -/
theorem normalize_order_cex :
    (NormalizeScore [⟨"a", 0⟩, ⟨"b", 1⟩, ⟨"c", 2305843009213693952⟩]).1 =
      [⟨"a", 0⟩, ⟨"b", 0⟩, ⟨"c", -4⟩] ∧
    ¬(((NormalizeScore
          [⟨"a", 0⟩, ⟨"b", 1⟩, ⟨"c", 2305843009213693952⟩]).1.get
            ⟨1, by decide⟩).score ≤
      ((NormalizeScore
          [⟨"a", 0⟩, ⟨"b", 1⟩, ⟨"c", 2305843009213693952⟩]).1.get
            ⟨2, by decide⟩).score) := by
  constructor <;> decide

/-- C4 amended: `NormalizeScore` is order-preserving (`raw[i] < raw[j]`
implies `normalized[i] ≤ normalized[j]`) provided the raw scores are
bounded by `2^55` in absolute value so that no `int64` operation
overflows; the unrestricted claim fails by overflow (see the
counterexample). -/
theorem normalize_order_no_overflow (scores : List NodeScore)
    (hb : ∀ ns ∈ scores,
      -36028797018963968 ≤ ns.score ∧ ns.score ≤ 36028797018963968)
    (i j : Nat) (hi : i < scores.length) (hj : j < scores.length)
    (hlt : (scores.get ⟨i, hi⟩).score < (scores.get ⟨j, hj⟩).score)
    (hi' : i < (NormalizeScore scores).1.length)
    (hj' : j < (NormalizeScore scores).1.length) :
    ((NormalizeScore scores).1.get ⟨i, hi'⟩).score ≤
      ((NormalizeScore scores).1.get ⟨j, hj'⟩).score := by
  obtain ⟨mn, mx, hmm⟩ : ∃ mn mx,
      scores.foldl minMaxStep (9223372036854775807, -9223372036854775808) =
        (mn, mx) := ⟨_, _, rfl⟩
  have hxi : scores.get ⟨i, hi⟩ ∈ scores := scores.get_mem _ _
  have hxj : scores.get ⟨j, hj⟩ ∈ scores := scores.get_mem _ _
  have hmi := foldl_minMax_bounds_of_mem scores
    (9223372036854775807, -9223372036854775808) _ hxi
  have hmj := foldl_minMax_bounds_of_mem scores
    (9223372036854775807, -9223372036854775808) _ hxj
  rw [hmm] at hmi hmj
  have hbnd := foldl_minMax_of_bounds scores
    (9223372036854775807, -9223372036854775808)
    (-36028797018963968) 36028797018963968 (by norm_num) (by norm_num) hb
  rw [hmm] at hbnd
  have hpos : mn < mx := by
    have := hmi.1
    have := hmj.2
    omega
  have hrange : sub64 mx mn = mx - mn := wrap64_eq_self (by omega) (by omega)
  have hres : (NormalizeScore scores).1 =
      scores.map (fun ns =>
        { ns with score := scaledScore mn (sub64 mx mn) ns.score }) := by
    unfold NormalizeScore
    rw [hmm]
    dsimp only
    rw [if_neg (by omega : ¬(sub64 mx mn = 0))]
    rfl
  have hgi : ((NormalizeScore scores).1.get ⟨i, hi'⟩) =
      { scores.get ⟨i, hi⟩ with
        score := scaledScore mn (sub64 mx mn) (scores.get ⟨i, hi⟩).score } := by
    have : i < (scores.map (fun ns =>
        { ns with score := scaledScore mn (sub64 mx mn) ns.score })).length := by
      rw [← hres]
      exact hi'
    simp only [hres, List.get_eq_getElem, List.getElem_map]
  have hgj : ((NormalizeScore scores).1.get ⟨j, hj'⟩) =
      { scores.get ⟨j, hj⟩ with
        score := scaledScore mn (sub64 mx mn) (scores.get ⟨j, hj⟩).score } := by
    simp only [hres, List.get_eq_getElem, List.getElem_map]
  rw [hgi, hgj]
  rw [scaledScore_eq_exact mn mx _ hbnd.1 hbnd.2 hmi.1 hmi.2 hpos,
    scaledScore_eq_exact mn mx _ hbnd.1 hbnd.2 hmj.1 hmj.2 hpos]
  exact scale_quotient_mono mn mx _ _ (by omega) hpos

/-- Witness for C4's amended theorem on the vector `[1000, 2000]` at
indices 0 and 1. -/
theorem normalize_order_no_overflow_witness :
    ((NormalizeScore [⟨"a", 1000⟩, ⟨"b", 2000⟩]).1.get ⟨0, by decide⟩).score ≤
      ((NormalizeScore [⟨"a", 1000⟩, ⟨"b", 2000⟩]).1.get ⟨1, by decide⟩).score :=
  normalize_order_no_overflow [⟨"a", 1000⟩, ⟨"b", 2000⟩] (by decide) 0 1
    (by decide) (by decide) (by decide) (by decide) (by decide)

/-- C9: on the empty score vector `NormalizeScore` writes nothing and
returns Success with the vector still empty. -/
theorem normalize_empty_noop :
    NormalizeScore [] = ([], NewStatus Code.Success "") := by
  decide

/-- C10: `NormalizeScore` preserves the length of the score vector and
the node name at every index; only the `Score` fields change. -/
theorem normalize_preserves_names (scores : List NodeScore) :
    (NormalizeScore scores).1.length = scores.length ∧
    (NormalizeScore scores).1.map NodeScore.name = scores.map NodeScore.name := by
  unfold NormalizeScore
  dsimp only
  split <;> simp [List.map_map, Function.comp]

end Plugins
